import Mathlib

/-
Verification of the crawl-and-download engine in src/scraper.py
(repository damndeepesh/webscrapper).

The embedding models Python strings as lists of characters.  The pieces of
the Python standard library the engine relies on (urllib.parse.urlparse,
urllib.parse.urljoin, os.path.basename, os.path.splitext) are translated
from CPython's urllib/parse.py and posixpath.py, restricted to URLs without
';'-parameters and without embedded tab/CR control characters, which the
engine never produces.  The aiohttp network is modelled as a function from
URL to an optional response; `none` models a network error or timeout
(aiohttp.ClientError / asyncio.TimeoutError, both caught by the engine).
The asyncio scheduling of _crawl_internal_links is modelled by the
sequential schedule in which each spawned child task runs to completion in
spawn (document) order; the visited-set check and insert (lines 70-74 of
scraper.py) contain no await and are therefore a single atomic step.
-/

namespace WebScraper

/-- Python strings, modelled as lists of characters. -/
abbrev Str := List Char

/-- Convert a Lean string literal to the model representation. -/
def str (s : String) : Str := s.toList

/-- Index of the first occurrence of a character (Python str.find). -/
def findChar (c : Char) : Str → Option Nat
  | [] => none
  | d :: ds => if d = c then some 0 else (findChar c ds).map (· + 1)

/-- Split at the first occurrence of a character: the part before it, and
(if the character occurs) the part after it. -/
def splitOnFirst (c : Char) (s : Str) : Str × Option Str :=
  match findChar c s with
  | none => (s, none)
  | some i => (s.take i, some (s.drop (i + 1)))

/-- Python str.split(sep) for a one-character separator. -/
def splitAll (c : Char) : Str → List Str
  | [] => [[]]
  | d :: ds =>
    let r := splitAll c ds
    if d = c then [] :: r
    else
      match r with
      | [] => [[d]]
      | h :: t => (d :: h) :: t

/-- Python str.lower restricted to the ASCII characters appearing in URL
schemes. -/
def lowerStr (s : Str) : Str := s.map Char.toLower

/-- Characters allowed in a URL scheme (urllib.parse.scheme_chars). -/
def schemeChars : Str :=
  str "abcdefghijklmnopqrstuvwxyzABCDEFGHIJKLMNOPQRSTUVWXYZ0123456789+-."

/-- The parts of a split URL (urllib.parse.SplitResult): scheme, netloc,
path, query, fragment. -/
structure UrlParts where
  scheme : Str
  netloc : Str
  path : Str
  query : Str
  fragment : Str
deriving DecidableEq

/-- Scheme recognition of urllib.parse.urlsplit: the part before the first
colon is a scheme when the colon is at index > 0, the first character is an
ASCII letter and every character before the colon is a scheme character;
the scheme is lowercased.  Returns (scheme, rest); the scheme is [] when
the URL carries none. -/
def splitScheme (url : Str) : Str × Str :=
  match findChar ':' url with
  | none => ([], url)
  | some i =>
    if 0 < i ∧ (url.take i).all (fun c => schemeChars.contains c) ∧
        (url.take 1).all Char.isAlpha then
      (lowerStr (url.take i), url.drop (i + 1))
    else ([], url)

/-- A character that terminates the netloc portion of a URL. -/
def netlocStop (c : Char) : Bool := c = '/' ∨ c = '?' ∨ c = '#'

/-- urllib.parse._splitnetloc: when the remainder after the scheme begins
with "//", the netloc runs until the next '/', '?' or '#'. -/
def splitNetloc (rest : Str) : Str × Str :=
  if rest.take 2 = str "//" then
    ((rest.drop 2).takeWhile (fun c => !netlocStop c),
     (rest.drop 2).dropWhile (fun c => !netlocStop c))
  else ([], rest)

/-- urllib.parse.urlsplit with a default scheme (the second positional
argument of urlsplit/urlparse, used by urljoin). -/
def urlsplitD (defaultScheme : Str) (url : Str) : UrlParts :=
  let sr := splitScheme url
  let scheme := if sr.1 = [] then defaultScheme else sr.1
  let nr := splitNetloc sr.2
  let fr := splitOnFirst '#' nr.2
  let qr := splitOnFirst '?' fr.1
  { scheme := scheme, netloc := nr.1, path := qr.1,
    query := (qr.2).getD [], fragment := (fr.2).getD [] }

/-- urllib.parse.urlparse as called by scraper.py (no default scheme; URLs
without ';'-parameters, so the params component is empty and omitted). -/
def urlparse (url : Str) : UrlParts := urlsplitD [] url

/-- urllib.parse.urlunsplit. -/
def urlunsplit (u : UrlParts) : Str :=
  let p1 :=
    if u.netloc ≠ [] ∨ u.path.take 2 = str "//" then
      str "//" ++ u.netloc ++
        (if u.path ≠ [] ∧ u.path.take 1 ≠ str "/" then str "/" ++ u.path else u.path)
    else u.path
  let p2 := if u.scheme ≠ [] then u.scheme ++ str ":" ++ p1 else p1
  let p3 := if u.query ≠ [] then p2 ++ str "?" ++ u.query else p2
  if u.fragment ≠ [] then p3 ++ str "#" ++ u.fragment else p3

/-- urllib.parse.uses_relative. -/
def usesRelative : List Str :=
  [str "", str "ftp", str "http", str "gopher", str "nntp", str "imap",
   str "wais", str "file", str "https", str "shttp", str "mms",
   str "prospero", str "rtsp", str "rtspu", str "sftp", str "svn",
   str "svn+ssh", str "ws", str "wss"]

/-- urllib.parse.uses_netloc. -/
def usesNetloc : List Str :=
  [str "", str "ftp", str "http", str "gopher", str "nntp", str "telnet",
   str "imap", str "wais", str "file", str "mms", str "https", str "shttp",
   str "snews", str "prospero", str "rtsp", str "rtspu", str "rsync",
   str "svn", str "svn+ssh", str "sftp", str "nfs", str "git",
   str "git+ssh", str "ws", str "wss"]

/-- The middle-segment filtering of urljoin: segments[1:-1] keeps only the
non-empty entries (the first element is kept by the caller, the last is
kept here unconditionally). -/
def keepLast : List Str → List Str
  | [] => []
  | [x] => [x]
  | x :: xs => if x = [] then keepLast xs else x :: keepLast xs

/-- filter(None, segments[1:-1]) applied in place, keeping the first and
last segments. -/
def filterMiddle : List Str → List Str
  | [] => []
  | [x] => [x]
  | x :: xs => x :: keepLast xs

/-- The '.'/'..' segment resolution loop of urljoin.  The accumulator holds
the resolved path in reverse; popping an empty accumulator is a no-op
(the IndexError is passed). -/
def resolveSegments (acc : List Str) : List Str → List Str
  | [] => acc.reverse
  | seg :: rest =>
    if seg = str ".." then resolveSegments (acc.drop 1) rest
    else if seg = str "." then resolveSegments acc rest
    else resolveSegments (seg :: acc) rest

/-- urllib.parse.urljoin (CPython 3.x), restricted to URLs without
';'-parameters. -/
def urljoin (base url : Str) : Str :=
  if base = [] then url
  else if url = [] then base
  else
    let b := urlparse base
    let u := urlsplitD b.scheme url
    if u.scheme ≠ b.scheme ∨ u.scheme ∉ usesRelative then url
    else if u.scheme ∈ usesNetloc ∧ u.netloc ≠ [] then urlunsplit u
    else
      let netloc := if u.scheme ∈ usesNetloc then b.netloc else u.netloc
      if u.path = [] then
        urlunsplit { scheme := u.scheme, netloc := netloc, path := b.path,
                     query := if u.query = [] then b.query else u.query,
                     fragment := u.fragment }
      else
        let baseParts0 := splitAll '/' b.path
        let baseParts :=
          if baseParts0.getLast? ≠ some [] then baseParts0.dropLast else baseParts0
        let segments :=
          if u.path.take 1 = str "/" then splitAll '/' u.path
          else filterMiddle (baseParts ++ splitAll '/' u.path)
        let resolved0 := resolveSegments [] segments
        let resolved :=
          if segments.getLast? = some (str ".") ∨ segments.getLast? = some (str "..") then
            resolved0 ++ [[]]
          else resolved0
        urlunsplit { scheme := u.scheme, netloc := netloc,
                     path := List.intercalate (str "/") resolved,
                     query := u.query, fragment := u.fragment }

/-- os.path.basename for the '/'-separated paths inside URLs: everything
after the last '/'. -/
def basename (p : Str) : Str := (p.reverse.takeWhile (fun c => c ≠ '/')).reverse

/-- Index of the last occurrence of a character (Python str.rfind). -/
def rfindChar (c : Char) (s : Str) : Option Nat :=
  (findChar c s.reverse).map (fun i => s.length - 1 - i)

/-- The extension component of os.path.splitext (posixpath): the part of
the final path segment from its last dot on, provided that segment has a
non-dot character before that dot; empty otherwise. -/
def splitextExt (p : Str) : Str :=
  let b := basename p
  match rfindChar '.' b with
  | none => []
  | some j => if (b.take j).any (fun c => c ≠ '.') then b.drop j else []

/-- Python `'needle' in hay` substring containment. -/
def isSubstr (needle : Str) : Str → Bool
  | [] => needle.isEmpty
  | c :: cs => needle.isPrefixOf (c :: cs) || isSubstr needle cs

/-- An HTTP response as the crawler observes it: status code, Content-Type
header (headers.get('Content-Type', ''), so [] when absent) and the href
targets of the anchor elements BeautifulSoup finds in the body
(soup.find_all('a', href=True), in document order). -/
structure Page where
  status : Nat
  contentType : Str
  hrefs : List Str
deriving DecidableEq

/-- The network, as a function from URL to response; `none` models a
network error or timeout for that fetch. -/
abbrev Env := Str → Option Page

/-- Line 92 of scraper.py: the normalized URL
f-string scheme ++ "://" ++ netloc ++ path built from a parse result. -/
def mkNorm (u : UrlParts) : Str := u.scheme ++ str "://" ++ u.netloc ++ u.path

/-- Normalization of a URL string for crawl deduplication: parse it and
keep scheme + authority + path (query and fragment stripped). -/
def normalize (u : Str) : Str := mkNorm (urlparse u)

/-- Lines 84-92 of scraper.py: resolve each href against the page URL,
keep it when its netloc equals the crawl's base domain and the resolved
URL has no fragment, and normalize it. -/
def childCandidates (pageUrl base : Str) (hrefs : List Str) : List Str :=
  hrefs.filterMap fun href =>
    let pu := urlparse (urljoin pageUrl href)
    if pu.netloc = base ∧ pu.fragment = [] then some (mkNorm pu) else none

/-- The observable outcome of one crawl branch: the set of internal links
it returns (lines 75, 104, 117), the visited set after it completes, and
the URLs it fetched (the calls to session.get on line 78), each recorded
in order. -/
structure CrawlOut where
  links : List Str
  visited : List Str
  fetched : List Str
deriving DecidableEq

/-- Sequential execution of the child crawl tasks spawned on lines 95-98
and gathered on line 101, in spawn order, threading the shared visited
set. -/
def runChildren (step : Str → List Str → CrawlOut) : List Str → List Str → CrawlOut
  | [], visited => ⟨[], visited, []⟩
  | c :: cs, visited =>
    ⟨(step c visited).links ++ (runChildren step cs (step c visited).visited).links,
     (runChildren step cs (step c visited).visited).visited,
     (step c visited).fetched ++ (runChildren step cs (step c visited).visited).fetched⟩

/-- The successful-HTML case of a crawl branch: the branch's URL is
followed by everything its child tasks return (lines 75 and 100-104). -/
def crawlNode (step : Str → List Str → CrawlOut) (url : Str) (visited cands : List Str) :
    CrawlOut :=
  ⟨url :: (runChildren step cands (url :: visited)).links,
   (runChildren step cands (url :: visited)).visited,
   url :: (runChildren step cands (url :: visited)).fetched⟩

/-- _crawl_internal_links (lines 68-117 of scraper.py), with an explicit
fuel argument standing for the recursion depth available; the fuel is
irrelevant once it exceeds the remaining depth budget (see the fuel
independence theorem below).  A branch whose depth exceeds max_depth or
whose URL is already visited contributes nothing (lines 70-71); otherwise
the URL is inserted into the visited set (line 74), fetched (line 78), and
on a 200 text/html response the same-domain fragment-free normalized links
not yet visited are crawled recursively at depth+1 (lines 84-104); on any
other response or a network failure the branch returns just its own URL
(lines 107-117). -/
def crawlF (env : Env) (base : Str) (maxD : Nat) : Nat → Str → List Str → Nat → CrawlOut
  | 0, _, visited, _ => ⟨[], visited, []⟩
  | fuel + 1, url, visited, depth =>
    if maxD < depth ∨ url ∈ visited then ⟨[], visited, []⟩
    else
      match env url with
      | some p =>
        if p.status = 200 ∧ isSubstr (str "text/html") p.contentType then
          crawlNode (fun c v => crawlF env base maxD fuel c v (depth + 1)) url visited
            ((childCandidates url base p.hrefs).filter (fun c => !decide (c ∈ url :: visited)))
        else ⟨[url], url :: visited, [url]⟩
      | none => ⟨[url], url :: visited, [url]⟩

/-- Insertion into a sorted list, by Python string comparison
(lexicographic on code points). -/
def strLt : Str → Str → Bool
  | [], [] => false
  | [], _ :: _ => true
  | _ :: _, [] => false
  | a :: as, b :: bs => if a = b then strLt as bs else decide (a < b)

def strLe (a b : Str) : Bool := !strLt b a

def insertSorted (x : Str) : List Str → List Str
  | [] => [x]
  | y :: ys => if strLe x y then x :: y :: ys else y :: insertSorted x ys

/-- Python sorted() on a list of strings. -/
def sortStr : List Str → List Str
  | [] => []
  | x :: xs => insertSorted x (sortStr xs)

/-- generate_sitemap (lines 119-135) up to the final sorting: empty outcome
when the start URL has no netloc (lines 121-125), otherwise the crawl from
the start URL at depth 0 with an empty visited set. -/
def sitemapRun (env : Env) (startUrl : Str) (maxDepth : Nat) : CrawlOut :=
  let base := (urlparse startUrl).netloc
  if base = [] then ⟨[], [], []⟩
  else crawlF env base maxDepth (maxDepth + 1) startUrl [] 0

/-- generate_sitemap's return value: the crawled links, sorted (line 135). -/
def generateSitemap (env : Env) (startUrl : Str) (maxDepth : Nat) : List Str :=
  sortStr (sitemapRun env startUrl maxDepth).links

/-- The hop-closure of the link graph the crawler walks: URLs reachable
from u by following at most n same-domain normalized links, where the
links of a page are exactly the candidates the crawler extracts from a
200 text/html response (and none otherwise). -/
def pageLinks (env : Env) (base : Str) (u : Str) : List Str :=
  match env u with
  | some p =>
    if p.status = 200 ∧ isSubstr (str "text/html") p.contentType then
      childCandidates u base p.hrefs
    else []
  | none => []

def reachList (env : Env) (base : Str) : Nat → Str → List Str
  | 0, u => [u]
  | n + 1, u => u :: (pageLinks env base u).flatMap (fun c => reachList env base n c)

/-- The download-scan filter of scrape_website (lines 177-195): resolve
each href, and keep it when the extension of its path (lowercased) is a
target extension and its scheme is http or https. -/
def TARGET_EXTENSIONS : List Str :=
  [str ".pdf", str ".jpg", str ".jpeg", str ".png", str ".gif", str ".doc",
   str ".docx", str ".xls", str ".xlsx", str ".ppt", str ".pptx",
   str ".zip", str ".rar"]

def targetLinks (pageUrl : Str) (hrefs : List Str) : List Str :=
  hrefs.filterMap fun href =>
    let absUrl := urljoin pageUrl href
    let pu := urlparse absUrl
    if lowerStr (splitextExt pu.path) ∈ TARGET_EXTENSIONS then
      if pu.scheme = str "http" ∨ pu.scheme = str "https" then some absUrl else none
    else none

/-- The download dispatch of scrape_website's file-analysis phase (lines
170-208): one fetch of the page; on a 200 response every filtered link
becomes a download task; on a non-200 response, a network error or a
timeout no download is dispatched.  The Content-Type of the response is
not consulted. -/
def scrapeDownloadTargets (env : Env) (url : Str) : List Str :=
  match env url with
  | some p => if p.status = 200 then targetLinks url p.hrefs else []
  | none => []

/-- A response to a download fetch: status and Content-Disposition header. -/
structure DlResp where
  status : Nat
  contentDisposition : Option Str
deriving DecidableEq

abbrev DlEnv := Str → Option DlResp

/-- The characters excluded from the filename capture group.  Line 41 of
scraper.py builds its pattern from three adjacent string literals,
r'filename=[' "?]?([^" '\n;]+)', which concatenate to
filename=[?]?([^\n;]+): an optional literal question mark followed by a
capture of one or more characters other than newline and semicolon. -/
def cdExcluded (c : Char) : Bool := c = Char.ofNat 10 ∨ c = ';'

/-- Matching [?]?([^\n;]+) at a fixed position (with the regex engine's
backtracking on the optional question mark): returns the capture group. -/
def cdMatchAt : Str → Option Str
  | [] => none
  | c :: cs =>
    if c = '?' then
      let cap := cs.takeWhile (fun d => !cdExcluded d)
      if cap = [] then some [c] else some cap
    else
      if cdExcluded c then none
      else some ((c :: cs).takeWhile (fun d => !cdExcluded d))

/-- re.search of the pattern over the header value: the capture group of
the leftmost match, if any. -/
def cdCapture : Str → Option Str
  | [] => none
  | c :: cs =>
    if (str "filename=").isPrefixOf (c :: cs) then
      match cdMatchAt ((c :: cs).drop 9) with
      | some g => some g
      | none => cdCapture cs
    else cdCapture cs

/-- Python str.strip() whitespace. -/
def isPyWs (c : Char) : Bool :=
  c = ' ' ∨ c = Char.ofNat 9 ∨ c = Char.ofNat 10 ∨ c = Char.ofNat 13 ∨
  c = Char.ofNat 11 ∨ c = Char.ofNat 12

def stripWs (s : Str) : Str :=
  ((s.dropWhile isPyWs).reverse.dropWhile isPyWs).reverse

/-- .replace('/', '_').replace('\\', '_') of line 45. -/
def sepToUnderscore (s : Str) : Str :=
  s.map fun c => if c = '/' ∨ c = Char.ofNat 92 then '_' else c

/-- The filename derived from the URL path (lines 26-32): the basename of
the path, or, when the path ends in '/', a synthesized
downloaded_file_<hex> name keeping the path's extension; rand stands for
the os.urandom(4).hex() value of that run. -/
def urlFilename (rand : Str) (url : Str) : Str :=
  let pu := urlparse url
  let fn := basename pu.path
  if fn = [] then str "downloaded_file_" ++ rand ++ splitextExt pu.path
  else fn

/-- The filename download_file writes under, given the Content-Disposition
header of the 200 response (lines 26-48): the header's captured filename,
stripped and with path separators replaced, overrides the URL-derived name
when present and non-empty. -/
def downloadFilename (rand : Str) (url : Str) (cd : Option Str) : Str :=
  let fn0 := urlFilename rand url
  match cd with
  | none => fn0
  | some h =>
    match cdCapture h with
    | none => fn0
    | some g =>
      let hf := sepToUnderscore (stripWs g)
      if hf = [] then fn0 else hf

/-- download_file (lines 19-66): on a network error (caught aiohttp
ClientError) or a non-200 status no file is written and False is returned;
on a 200 response the file is written under the computed name and True is
returned. -/
def downloadFile (rand : Str) (url : Str) (resp : Option DlResp) : Option Str × Bool :=
  match resp with
  | none => (none, false)
  | some r =>
    if r.status = 200 then (some (downloadFilename rand url r.contentDisposition), true)
    else (none, false)

/-- asyncio.gather over the download tasks (lines 199-201): every task runs
and its boolean outcome is collected; download_file never raises. -/
def gatherDownloads (denv : DlEnv) (targets : List Str) : List Bool :=
  targets.map fun t => (downloadFile [] t (denv t)).2

/-- Lines 204-205: the success/fail tally. -/
def successCount (results : List Bool) : Nat := (results.filter (fun b => b)).length

def failCount (results : List Bool) : Nat := results.length - successCount results

/-! ### Concrete environments used to exercise the theorems -/

/-- A small site: the front page links to /a, itself, a fragment link and
an external site; /a links back to the front page. -/
def crawlEnvA : Env := fun u =>
  if u = str "http://w.com/" then
    some ⟨200, str "text/html",
      [str "a", str "http://w.com/", str "b#frag", str "http://other.com/z"]⟩
  else if u = str "http://w.com/a" then
    some ⟨200, str "text/html; charset=utf-8", [str "http://w.com/"]⟩
  else none

/-- A seed URL carrying a query string whose page links to its own
normalized form. -/
def crawlEnvQuery : Env := fun u =>
  if u = str "https://example.com/a?q=1" then some ⟨200, str "text/html", [str "a"]⟩
  else none

/-- An https seed whose page carries an absolute http link to the same
host. -/
def crawlEnvScheme : Env := fun u =>
  if u = str "https://example.com/" then
    some ⟨200, str "text/html", [str "http://example.com/x"]⟩
  else none

/-- The page of the extension-filter scenario: links a.pdf, b.PDF, c.html
and d.zip?x=1. -/
def scanEnvExt : Env := fun u =>
  if u = str "http://example.com/" then
    some ⟨200, str "text/html",
      [str "a.pdf", str "b.PDF", str "c.html", str "d.zip?x=1"]⟩
  else none

/-- A 200 response that is not HTML yet contains an anchor to a PDF. -/
def scanEnvJson : Env := fun u =>
  if u = str "http://ex.com/" then
    some ⟨200, str "application/json", [str "a.pdf"]⟩
  else none

/-- A page whose fetch returns a 404. -/
def scanEnvNotFound : Env := fun _ =>
  some ⟨404, str "text/html", [str "a.pdf"]⟩

/-- A network on which every fetch fails. -/
def envAllFail : Env := fun _ => none

/-- Five download targets of which the second hits a connection error. -/
def dlTargetsFive : List Str :=
  [str "http://e.com/1.pdf", str "http://e.com/2.pdf", str "http://e.com/3.pdf",
   str "http://e.com/4.pdf", str "http://e.com/5.pdf"]

def dlEnvOneErr : DlEnv := fun t =>
  if t = str "http://e.com/2.pdf" then none else some ⟨200, none⟩

/-! ### Sorting lemmas -/

lemma insertSorted_perm (x : Str) (l : List Str) :
    List.Perm (insertSorted x l) (x :: l) := by
  induction l with
  | nil => exact List.Perm.refl _
  | cons y ys ih =>
    rw [insertSorted]
    split
    · exact List.Perm.refl _
    · exact (ih.cons y).trans (List.Perm.swap x y ys)

lemma sortStr_perm (l : List Str) : List.Perm (sortStr l) l := by
  induction l with
  | nil => exact List.Perm.refl _
  | cons x xs ih => exact (insertSorted_perm x (sortStr xs)).trans (ih.cons x)

lemma mem_sortStr {x : Str} {l : List Str} : x ∈ sortStr l ↔ x ∈ l :=
  (sortStr_perm l).mem_iff

lemma length_sortStr (l : List Str) : (sortStr l).length = l.length :=
  (sortStr_perm l).length_eq

lemma nodup_sortStr {l : List Str} (h : l.Nodup) : (sortStr l).Nodup :=
  ((sortStr_perm l).nodup_iff).mpr h

/-! ### Unfolding equations for the crawler -/

lemma crawlF_zero (env : Env) (base : Str) (maxD : Nat) (u : Str) (v : List Str) (d : Nat) :
    crawlF env base maxD 0 u v d = ⟨[], v, []⟩ := rfl

lemma crawlF_succ (env : Env) (base : Str) (maxD fuel : Nat) (u : Str) (v : List Str) (d : Nat) :
    crawlF env base maxD (fuel + 1) u v d =
      if maxD < d ∨ u ∈ v then ⟨[], v, []⟩
      else
        match env u with
        | some p =>
          if p.status = 200 ∧ isSubstr (str "text/html") p.contentType then
            crawlNode (fun c vv => crawlF env base maxD fuel c vv (d + 1)) u v
              ((childCandidates u base p.hrefs).filter (fun c => !decide (c ∈ u :: v)))
          else ⟨[u], u :: v, [u]⟩
        | none => ⟨[u], u :: v, [u]⟩ := rfl

lemma runChildren_congr {s1 s2 : Str → List Str → CrawlOut}
    (h : ∀ c v, s1 c v = s2 c v) : ∀ cs v, runChildren s1 cs v = runChildren s2 cs v := by
  intro cs
  induction cs with
  | nil => intro v; rfl
  | cons c cs ih => intro v; rw [runChildren, runChildren, h, ih]

/-! ### Termination: the fuel is irrelevant once it covers the depth budget -/

lemma crawlF_fuel_succ (env : Env) (base : Str) (maxD : Nat) :
    ∀ fuel d (u : Str) (v : List Str), maxD < d + fuel →
      crawlF env base maxD (fuel + 1) u v d = crawlF env base maxD fuel u v d := by
  intro fuel
  induction fuel with
  | zero =>
    intro d u v h
    rw [crawlF_zero, crawlF_succ, if_pos]
    exact Or.inl (by omega)
  | succ k ih =>
    intro d u v h
    rw [crawlF_succ, crawlF_succ]
    by_cases hg : maxD < d ∨ u ∈ v
    · rw [if_pos hg, if_pos hg]
    · rw [if_neg hg, if_neg hg]
      cases henv : env u with
      | none => rfl
      | some p =>
        dsimp only
        by_cases hp : p.status = 200 ∧ isSubstr (str "text/html") p.contentType
        · rw [if_pos hp, if_pos hp]
          unfold crawlNode
          rw [runChildren_congr (fun c vv => ih (d + 1) c vv (by omega))]
        · rw [if_neg hp, if_neg hp]

lemma crawlF_fuel_add (env : Env) (base : Str) (maxD fuel k d : Nat) (u : Str)
    (v : List Str) (h : maxD < d + fuel) :
    crawlF env base maxD (fuel + k) u v d = crawlF env base maxD fuel u v d := by
  induction k with
  | zero => rfl
  | succ j ih =>
    rw [Nat.add_succ, crawlF_fuel_succ env base maxD (fuel + j) d u v (by omega), ih]

/-! ### Character and search helper lemmas -/

lemma schemeChars_not_special :
    ∀ c ∈ schemeChars, c ≠ ':' ∧ c ≠ '/' ∧ c ≠ '?' ∧ c ≠ '#' := by decide

lemma schemeChars_lower_closed :
    ∀ c ∈ schemeChars, Char.toLower c ∈ schemeChars ∧
      (Char.toLower c).toLower = Char.toLower c ∧
      (c.isAlpha = true → (Char.toLower c).isAlpha = true) := by decide

lemma findChar_eq_none {c : Char} : ∀ {s : Str}, findChar c s = none ↔ ∀ d ∈ s, d ≠ c := by
  intro s
  induction s with
  | nil => simp [findChar]
  | cons d ds ih =>
    by_cases hd : d = c
    · simp [findChar, hd]
    · simp [findChar, hd, ih]

lemma findChar_append_left {c : Char} {a : Str} (h : ∀ d ∈ a, d ≠ c) (b : Str) :
    findChar c (a ++ c :: b) = some a.length := by
  induction a with
  | nil => simp [findChar]
  | cons d ds ih =>
    have hd : d ≠ c := h d (by simp)
    have ih2 := ih (fun x hx => h x (by simp [hx]))
    show (if d = c then some 0 else (findChar c (ds ++ c :: b)).map (· + 1)) =
      some (ds.length + 1)
    rw [if_neg hd, ih2]
    rfl

lemma findChar_take_ne {c : Char} :
    ∀ {s : Str} {i : Nat}, findChar c s = some i → ∀ d ∈ s.take i, d ≠ c := by
  intro s
  induction s with
  | nil => intro i h; simp [findChar] at h
  | cons e es ih =>
    intro i h
    by_cases he : e = c
    · simp [findChar, he] at h
      subst h
      simp
    · simp only [findChar, if_neg he] at h
      cases hf : findChar c es with
      | none => rw [hf] at h; simp at h
      | some j =>
        rw [hf] at h
        simp at h
        subst h
        intro d hd
        rw [List.take_succ_cons] at hd
        rcases List.mem_cons.mp hd with h1 | h2
        · exact h1 ▸ he
        · exact ih hf d h2

lemma findChar_cons_pos {c e : Char} {es : Str} {i : Nat}
    (h : findChar c (e :: es) = some i) (hne : e ≠ c) : 0 < i := by
  simp only [findChar, if_neg hne] at h
  cases hf : findChar c es with
  | none => rw [hf] at h; simp at h
  | some j => rw [hf] at h; simp at h; omega

lemma splitOnFirst_fst_ne (c : Char) (s : Str) : ∀ d ∈ (splitOnFirst c s).1, d ≠ c := by
  unfold splitOnFirst
  cases hf : findChar c s with
  | none => exact fun d hd => (findChar_eq_none.mp hf) d hd
  | some i => exact findChar_take_ne hf

lemma splitOnFirst_fst_subset (c : Char) (s : Str) : (splitOnFirst c s).1 ⊆ s := by
  unfold splitOnFirst
  cases hf : findChar c s with
  | none => exact fun d hd => hd
  | some i => exact List.take_subset i s

lemma splitOnFirst_of_no_occ {c : Char} {s : Str} (h : ∀ d ∈ s, d ≠ c) :
    splitOnFirst c s = (s, none) := by
  unfold splitOnFirst
  rw [findChar_eq_none.mpr h]

lemma splitOnFirst_head {c d : Char} (cs : Str) (hne : d ≠ c) :
    ∃ t, (splitOnFirst c (d :: cs)).1 = d :: t := by
  unfold splitOnFirst
  cases hf : findChar c (d :: cs) with
  | none => exact ⟨cs, rfl⟩
  | some i =>
    have hi : 0 < i := findChar_cons_pos hf hne
    refine ⟨(cs.take (i - 1)), ?_⟩
    simp only [List.take_cons]
    rw [show i = (i - 1) + 1 by omega]
    rfl

lemma splitOnFirst_cons_self (c : Char) (cs : Str) :
    (splitOnFirst c (c :: cs)).1 = [] := by
  unfold splitOnFirst
  simp [findChar]

lemma takeWhile_append_of_all {p : Char → Bool} {a : Str} (h : ∀ c ∈ a, p c = true) (b : Str) :
    (a ++ b).takeWhile p = a ++ b.takeWhile p ∧ (a ++ b).dropWhile p = b.dropWhile p := by
  induction a with
  | nil => simp
  | cons d ds ih =>
    have hd : p d = true := h d (by simp)
    have := ih (fun c hc => h c (by simp [hc]))
    simp only [List.cons_append, List.takeWhile_cons, List.dropWhile_cons, hd, if_pos]
    exact ⟨by rw [this.1], this.2⟩

lemma dropWhile_cases (p : Char → Bool) (l : Str) :
    l.dropWhile p = [] ∨ ∃ c cs, l.dropWhile p = c :: cs ∧ p c = false := by
  induction l with
  | nil => exact Or.inl rfl
  | cons d ds ih =>
    by_cases hd : p d = true
    · rw [List.dropWhile_cons, if_pos hd]
      exact ih
    · rw [List.dropWhile_cons, if_neg hd]
      exact Or.inr ⟨d, ds, rfl, by simpa using hd⟩

/-! ### Shape of urlparse outputs -/

/-- The shape of a scheme produced by urlparse: empty, or made of lowercase
scheme characters starting with a letter. -/
def SchemeShape (s : Str) : Prop :=
  (∀ c ∈ s.take 1, c.isAlpha = true) ∧ (∀ c ∈ s, c ∈ schemeChars) ∧ lowerStr s = s

/-- The shape of every URL string built on line 92 of scraper.py for a
given base domain: a scheme, the literal "://", the base domain, and a
path free of '?' and '#' that, for a non-empty base, is empty or starts
with '/'. -/
def NormEntry (base x : Str) : Prop :=
  ∃ s p, x = s ++ str "://" ++ base ++ p ∧ SchemeShape s ∧
    (∀ c ∈ p, c ≠ '?' ∧ c ≠ '#') ∧ (base = [] ∨ p = [] ∨ p.take 1 = str "/")

lemma schemeShape_nil : SchemeShape [] := by
  refine ⟨?_, ?_, rfl⟩ <;> intro c hc <;> simp at hc

lemma splitScheme_eq_none {url : Str} (hf : findChar ':' url = none) :
    splitScheme url = ([], url) := by
  unfold splitScheme
  rw [hf]

lemma splitScheme_eq_some {url : Str} {i : Nat} (hf : findChar ':' url = some i) :
    splitScheme url =
      if 0 < i ∧ ((url.take i).all fun c => schemeChars.contains c) ∧
          (url.take 1).all Char.isAlpha then
        (lowerStr (url.take i), url.drop (i + 1))
      else ([], url) := by
  unfold splitScheme
  rw [hf]

lemma splitScheme_shape (url : Str) : SchemeShape (splitScheme url).1 := by
  cases hf : findChar ':' url with
  | none =>
    rw [splitScheme_eq_none hf]
    exact schemeShape_nil
  | some i =>
    rw [splitScheme_eq_some hf]
    by_cases hcond : 0 < i ∧ ((url.take i).all fun c => schemeChars.contains c) ∧
        (url.take 1).all Char.isAlpha
    · rw [if_pos hcond]
      obtain ⟨hi, hall, halpha⟩ := hcond
      dsimp only
      have hmem : ∀ c ∈ url.take i, c ∈ schemeChars := by
        intro c hc
        have := (List.all_eq_true.mp hall) c hc
        simpa [List.contains, List.elem_eq_mem] using this
      refine ⟨?_, ?_, ?_⟩
      · intro c hc
        have h1 : (lowerStr (url.take i)).take 1 = lowerStr ((url.take i).take 1) := by
          simp only [lowerStr]
          exact (List.map_take _ _ _).symm
        rw [h1, List.take_take, show min 1 i = 1 by omega] at hc
        simp only [lowerStr, List.mem_map] at hc
        obtain ⟨d, hd, rfl⟩ := hc
        have hda := (List.all_eq_true.mp halpha) d hd
        have hds : d ∈ schemeChars := by
          apply hmem d
          have h2 : url.take 1 = (url.take i).take 1 := by
            rw [List.take_take, show min 1 i = 1 by omega]
          rw [h2] at hd
          exact List.take_subset 1 (url.take i) hd
        exact (schemeChars_lower_closed d hds).2.2 hda
      · intro c hc
        simp only [lowerStr, List.mem_map] at hc
        obtain ⟨d, hd, rfl⟩ := hc
        exact (schemeChars_lower_closed d (hmem d hd)).1
      · simp only [lowerStr, List.map_map]
        apply List.map_congr_left
        intro d hd
        exact (schemeChars_lower_closed d (hmem d hd)).2.1
    · rw [if_neg hcond]
      exact schemeShape_nil

lemma urlsplitD_scheme (ds url : Str) :
    (urlsplitD ds url).scheme = if (splitScheme url).1 = [] then ds else (splitScheme url).1 :=
  rfl

lemma urlsplitD_netloc (ds url : Str) :
    (urlsplitD ds url).netloc = (splitNetloc (splitScheme url).2).1 := rfl

lemma urlsplitD_path (ds url : Str) :
    (urlsplitD ds url).path =
      (splitOnFirst '?' (splitOnFirst '#' (splitNetloc (splitScheme url).2).2).1).1 := rfl

lemma urlsplitD_query (ds url : Str) :
    (urlsplitD ds url).query =
      ((splitOnFirst '?' (splitOnFirst '#' (splitNetloc (splitScheme url).2).2).1).2).getD [] :=
  rfl

lemma urlsplitD_fragment (ds url : Str) :
    (urlsplitD ds url).fragment =
      ((splitOnFirst '#' (splitNetloc (splitScheme url).2).2).2).getD [] := rfl

lemma urlsplitD_scheme_shape (url : Str) : SchemeShape (urlsplitD [] url).scheme := by
  rw [urlsplitD_scheme]
  by_cases h : (splitScheme url).1 = []
  · rw [if_pos h]
    exact schemeShape_nil
  · rw [if_neg h]
    exact splitScheme_shape url

lemma urlparse_scheme_shape (url : Str) : SchemeShape (urlparse url).scheme :=
  urlsplitD_scheme_shape url

lemma splitNetloc_fst_chars (rest : Str) :
    ∀ c ∈ (splitNetloc rest).1, netlocStop c = false := by
  unfold splitNetloc
  split
  · intro c hc
    have := List.mem_takeWhile_imp hc
    simpa using this
  · intro c hc
    simp at hc

lemma urlparse_netloc_chars (url : Str) :
    ∀ c ∈ (urlparse url).netloc, netlocStop c = false := by
  rw [urlparse, urlsplitD_netloc]
  exact splitNetloc_fst_chars (splitScheme url).2

lemma urlparse_path_chars (url : Str) :
    ∀ c ∈ (urlparse url).path, c ≠ '?' ∧ c ≠ '#' := by
  rw [urlparse, urlsplitD_path]
  intro c hc
  constructor
  · exact splitOnFirst_fst_ne '?' _ c hc
  · have : c ∈ (splitOnFirst '#' (splitNetloc (splitScheme url).2).2).1 :=
      splitOnFirst_fst_subset '?' _ hc
    exact splitOnFirst_fst_ne '#' _ c this

lemma urlparse_path_start (url : Str) (h : (urlparse url).netloc ≠ []) :
    (urlparse url).path = [] ∨ (urlparse url).path.take 1 = str "/" := by
  rw [urlparse, urlsplitD_netloc] at h
  rw [urlparse, urlsplitD_path]
  by_cases hb : ((splitScheme url).2.take 2 = str "//")
  · have hrest : (splitNetloc (splitScheme url).2).2 =
        ((splitScheme url).2.drop 2).dropWhile (fun c => !netlocStop c) := by
      unfold splitNetloc
      rw [if_pos hb]
    rcases dropWhile_cases (fun c => !netlocStop c) ((splitScheme url).2.drop 2) with hnil | hcons
    · left
      rw [hrest, hnil]
      rfl
    · obtain ⟨c, cs, heq, hcfalse⟩ := hcons
      have hcstop : netlocStop c = true := by simpa using hcfalse
      rw [hrest, heq]
      have hstop3 : c = '/' ∨ c = '?' ∨ c = '#' := by
        unfold netlocStop at hcstop
        simpa using hcstop
      rcases hstop3 with hc | hc | hc
      · subst hc
        obtain ⟨t, ht⟩ := splitOnFirst_head cs (show ('/' : Char) ≠ '#' by decide)
        rw [ht]
        obtain ⟨t2, ht2⟩ := splitOnFirst_head t (show ('/' : Char) ≠ '?' by decide)
        rw [ht2]
        right
        rfl
      · subst hc
        obtain ⟨t, ht⟩ := splitOnFirst_head cs (show ('?' : Char) ≠ '#' by decide)
        rw [ht, splitOnFirst_cons_self]
        left
        rfl
      · subst hc
        rw [splitOnFirst_cons_self]
        left
        rfl
  · exfalso
    apply h
    unfold splitNetloc
    rw [if_neg hb]

/-! ### Parsing a normalized URL recovers its components -/

lemma urlsplitD_eq (ds url : Str) :
    urlsplitD ds url =
      ⟨if (splitScheme url).1 = [] then ds else (splitScheme url).1,
       (splitNetloc (splitScheme url).2).1,
       (splitOnFirst '?' (splitOnFirst '#' (splitNetloc (splitScheme url).2).2).1).1,
       ((splitOnFirst '?' (splitOnFirst '#' (splitNetloc (splitScheme url).2).2).1).2).getD [],
       ((splitOnFirst '#' (splitNetloc (splitScheme url).2).2).2).getD []⟩ := rfl

lemma netlocStop_false_iff {c : Char} :
    netlocStop c = false ↔ c ≠ '/' ∧ c ≠ '?' ∧ c ≠ '#' := by
  simp [netlocStop, not_or]

lemma splitNetloc_slashes (y : Str) :
    splitNetloc ('/' :: '/' :: y) =
      (y.takeWhile (fun c => !netlocStop c), y.dropWhile (fun c => !netlocStop c)) := by
  unfold splitNetloc
  rw [if_pos (show List.take 2 ('/' :: '/' :: y) = str "//" from rfl)]
  rfl

lemma takeWhile_netloc_path {n p : Str} (hn : ∀ c ∈ n, netlocStop c = false)
    (hstart : p = [] ∨ p.take 1 = str "/") :
    (n ++ p).takeWhile (fun c => !netlocStop c) = n ∧
      (n ++ p).dropWhile (fun c => !netlocStop c) = p := by
  have hall : ∀ c ∈ n, (!netlocStop c) = true := by
    intro c hc
    rw [hn c hc]
    rfl
  have tw := takeWhile_append_of_all hall p
  rcases hstart with hnil | hhead
  · subst hnil
    simpa using tw
  · cases p with
    | nil => simpa using tw
    | cons d p2 =>
      have hd : d = '/' := by
        have : [d] = str "/" := by simpa using hhead
        injection this
      subst hd
      rw [tw.1, tw.2]
      constructor
      · rw [List.takeWhile_cons]
        simp [netlocStop]
      · rw [List.dropWhile_cons]
        simp [netlocStop]

lemma urlparse_norm_scheme {s n p : Str} (hsne : s ≠ []) (hs : SchemeShape s)
    (hn : ∀ c ∈ n, netlocStop c = false) (hp : ∀ c ∈ p, c ≠ '?' ∧ c ≠ '#')
    (hstart : p = [] ∨ p.take 1 = str "/") :
    urlparse (s ++ str "://" ++ n ++ p) = ⟨s, n, p, [], []⟩ := by
  obtain ⟨hs1, hs2, hs3⟩ := hs
  have hnocolon : ∀ d ∈ s, d ≠ ':' := fun d hd => (schemeChars_not_special d (hs2 d hd)).1
  have hx : s ++ str "://" ++ n ++ p = s ++ ':' :: ('/' :: '/' :: (n ++ p)) := by
    simp [str]
  have hfind : findChar ':' (s ++ str "://" ++ n ++ p) = some s.length := by
    rw [hx]
    exact findChar_append_left hnocolon _
  have htake : (s ++ str "://" ++ n ++ p).take s.length = s := by
    rw [hx, show s ++ ':' :: ('/' :: '/' :: (n ++ p)) = s ++ (':' :: ('/' :: '/' :: (n ++ p)))
      from rfl]
    exact List.take_left s _
  have hdrop : (s ++ str "://" ++ n ++ p).drop (s.length + 1) = '/' :: '/' :: (n ++ p) := by
    rw [hx, show s ++ ':' :: ('/' :: '/' :: (n ++ p)) =
      (s ++ [':']) ++ ('/' :: '/' :: (n ++ p)) by simp]
    rw [show s.length + 1 = (s ++ [':']).length by simp]
    exact List.drop_left _ _
  obtain ⟨c0, s2, rfl⟩ := List.exists_cons_of_ne_nil hsne
  have htake1 : ((c0 :: s2) ++ str "://" ++ n ++ p).take 1 = [c0] := rfl
  have hscheme : splitScheme ((c0 :: s2) ++ str "://" ++ n ++ p) =
      (c0 :: s2, '/' :: '/' :: (n ++ p)) := by
    rw [splitScheme_eq_some hfind, if_pos, htake, hdrop]
    · rw [show lowerStr (c0 :: s2) = c0 :: s2 from hs3]
    · refine ⟨by simp, ?_, ?_⟩
      · rw [htake, List.all_eq_true]
        intro d hd
        simpa [List.contains, List.elem_eq_mem] using hs2 d hd
      · rw [htake1]
        simp only [List.all_eq_true]
        intro d hd
        simp only [List.mem_singleton] at hd
        subst hd
        exact hs1 d (by simp)
  have hnet := splitNetloc_slashes (n ++ p)
  have htw := takeWhile_netloc_path hn hstart
  have hfrag : splitOnFirst '#' p = (p, none) :=
    splitOnFirst_of_no_occ (fun d hd => (hp d hd).2)
  have hquery : splitOnFirst '?' p = (p, none) :=
    splitOnFirst_of_no_occ (fun d hd => (hp d hd).1)
  rw [urlparse, urlsplitD_eq, hscheme]
  dsimp only
  rw [hnet]
  dsimp only
  rw [htw.1, htw.2, hfrag]
  dsimp only
  rw [hquery]
  simp

lemma urlparse_norm_noscheme {n p : Str} (hn : ∀ c ∈ n, netlocStop c = false)
    (hp : ∀ c ∈ p, c ≠ '?' ∧ c ≠ '#') :
    urlparse (str "://" ++ n ++ p) = ⟨[], [], str "://" ++ n ++ p, [], []⟩ := by
  have hx : str "://" ++ n ++ p = ':' :: '/' :: '/' :: (n ++ p) := by
    simp [str]
  have hfind : findChar ':' (str "://" ++ n ++ p) = some 0 := by
    rw [hx]
    simp [findChar]
  have hnofrag : ∀ d ∈ str "://" ++ n ++ p, d ≠ '#' := by
    rw [hx]
    intro d hd
    simp only [List.mem_cons, List.mem_append] at hd
    rcases hd with rfl | rfl | rfl | hd | hd
    · decide
    · decide
    · decide
    · exact (netlocStop_false_iff.mp (hn d hd)).2.2
    · exact (hp d hd).2
  have hnoquery : ∀ d ∈ str "://" ++ n ++ p, d ≠ '?' := by
    rw [hx]
    intro d hd
    simp only [List.mem_cons, List.mem_append] at hd
    rcases hd with rfl | rfl | rfl | hd | hd
    · decide
    · decide
    · decide
    · exact (netlocStop_false_iff.mp (hn d hd)).2.1
    · exact (hp d hd).1
  have hscheme : splitScheme (str "://" ++ n ++ p) = ([], str "://" ++ n ++ p) := by
    rw [splitScheme_eq_some hfind, if_neg]
    simp
  have hne2 : ((':' : Char) :: '/' :: []) ≠ ('/' :: '/' :: []) := by decide
  have hnet : splitNetloc (str "://" ++ n ++ p) = ([], str "://" ++ n ++ p) := by
    unfold splitNetloc
    rw [if_neg (show ¬((str "://" ++ n ++ p).take 2 = str "//") from fun h => hne2 h)]
  rw [urlparse, urlsplitD_eq, hscheme]
  dsimp only
  rw [hnet]
  dsimp only
  rw [splitOnFirst_of_no_occ hnofrag]
  dsimp only
  rw [splitOnFirst_of_no_occ hnoquery]
  simp

/-! ### Normalization on normalized entries -/

lemma normalize_normEntry {base x : Str} (hbase : base ≠ [])
    (hb : ∀ c ∈ base, netlocStop c = false) (hx : NormEntry base x) :
    (normalize x = x ∧ ∃ c t, x = c :: t ∧ c.isAlpha = true) ∨
    (normalize x = str "://" ++ x ∧ ∃ t, x = ':' :: t) := by
  obtain ⟨s, p, rfl, hss, hpp, hst⟩ := hx
  have hstart : p = [] ∨ p.take 1 = str "/" := hst.resolve_left hbase
  cases s with
  | nil =>
    right
    have hparse := urlparse_norm_noscheme hb hpp
    constructor
    · show mkNorm (urlparse ([] ++ str "://" ++ base ++ p)) = _
      simp only [List.nil_append]
      rw [hparse]
      rfl
    · exact ⟨'/' :: '/' :: (base ++ p), by simp [str]⟩
  | cons c s2 =>
    left
    have hparse := urlparse_norm_scheme (List.cons_ne_nil c s2) hss hb hpp hstart
    constructor
    · show mkNorm (urlparse ((c :: s2) ++ str "://" ++ base ++ p)) = _
      rw [hparse]
      rfl
    · exact ⟨c, s2 ++ str "://" ++ base ++ p, by simp, hss.1 c (by simp)⟩

lemma normEntry_inj {base x y : Str} (hbase : base ≠ [])
    (hb : ∀ c ∈ base, netlocStop c = false)
    (hx : NormEntry base x) (hy : NormEntry base y)
    (hxy : normalize x = normalize y) : x = y := by
  rcases normalize_normEntry hbase hb hx with ⟨nx, cx, tx, hxe, hxa⟩ | ⟨nx, tx, hxe⟩ <;>
    rcases normalize_normEntry hbase hb hy with ⟨ny, cy, ty, hye, hya⟩ | ⟨ny, ty, hye⟩
  · rw [nx, ny] at hxy
    exact hxy
  · exfalso
    rw [nx, ny, hxe, hye] at hxy
    have : cx = ':' := by
      have h2 : str "://" ++ ':' :: ty = ':' :: ('/' :: '/' :: ':' :: ty) := by simp [str]
      rw [h2] at hxy
      injection hxy
    rw [this] at hxa
    exact absurd hxa (by decide)
  · exfalso
    rw [nx, ny, hxe, hye] at hxy
    have : cy = ':' := by
      have h2 : str "://" ++ ':' :: tx = ':' :: ('/' :: '/' :: ':' :: tx) := by simp [str]
      rw [h2] at hxy
      injection hxy with h1 _
      exact h1.symm
    rw [this] at hya
    exact absurd hya (by decide)
  · rw [nx, ny] at hxy
    exact List.append_cancel_left hxy

/-- Every URL the crawler's link filter emits is a normalized entry of the
crawl's base domain. -/
lemma childCandidates_normEntry (pageUrl base : Str) (hrefs : List Str) :
    ∀ x ∈ childCandidates pageUrl base hrefs, NormEntry base x := by
  intro x hx
  unfold childCandidates at hx
  rw [List.mem_filterMap] at hx
  obtain ⟨href, _, hif⟩ := hx
  by_cases hcond : (urlparse (urljoin pageUrl href)).netloc = base ∧
      (urlparse (urljoin pageUrl href)).fragment = []
  · rw [if_pos hcond] at hif
    have hx2 : mkNorm (urlparse (urljoin pageUrl href)) = x := by
      injection hif
    refine ⟨(urlparse (urljoin pageUrl href)).scheme, (urlparse (urljoin pageUrl href)).path,
      ?_, urlparse_scheme_shape _, urlparse_path_chars _, ?_⟩
    · rw [← hx2, mkNorm, hcond.1]
    · by_cases hb : base = []
      · exact Or.inl hb
      · refine Or.inr (urlparse_path_start _ ?_)
        rw [hcond.1]
        exact hb
  · rw [if_neg hcond] at hif
    exact absurd hif (by simp)

/-! ### The crawl invariant -/

lemma mem_reachList_self (env : Env) (base : Str) : ∀ (n : Nat) (u : Str),
    u ∈ reachList env base n u := by
  intro n u
  cases n with
  | zero => simp [reachList]
  | succ k => simp [reachList]

lemma runChildren_spec (step : Str → List Str → CrawlOut) (Q : Str → Str → Prop)
    (hstep : ∀ c v,
      List.Perm (step c v).visited ((step c v).links ++ v) ∧
      (step c v).fetched = (step c v).links ∧
      (v.Nodup → (step c v).visited.Nodup) ∧
      (∀ x ∈ (step c v).links, Q c x)) :
    ∀ cs v,
      List.Perm (runChildren step cs v).visited ((runChildren step cs v).links ++ v) ∧
      (runChildren step cs v).fetched = (runChildren step cs v).links ∧
      (v.Nodup → (runChildren step cs v).visited.Nodup) ∧
      (∀ x ∈ (runChildren step cs v).links, ∃ c ∈ cs, Q c x) := by
  intro cs
  induction cs with
  | nil =>
    intro v
    refine ⟨List.Perm.refl _, rfl, fun h => h, ?_⟩
    intro x hx
    simp [runChildren] at hx
  | cons c cs ih =>
    intro v
    obtain ⟨h1, h2, h3, h4⟩ := hstep c v
    obtain ⟨g1, g2, g3, g4⟩ := ih (step c v).visited
    refine ⟨?_, ?_, ?_, ?_⟩
    · show List.Perm (runChildren step cs (step c v).visited).visited
        (((step c v).links ++ (runChildren step cs (step c v).visited).links) ++ v)
      refine (g1.trans (List.Perm.append_left _ h1)).trans ?_
      rw [← List.append_assoc]
      exact List.Perm.append_right v List.perm_append_comm
    · show (step c v).fetched ++ (runChildren step cs (step c v).visited).fetched =
        (step c v).links ++ (runChildren step cs (step c v).visited).links
      rw [h2, g2]
    · intro hv
      exact g3 (h3 hv)
    · intro x hx
      rcases List.mem_append.mp hx with hx1 | hx2
      · exact ⟨c, by simp, h4 x hx1⟩
      · obtain ⟨c2, hc2, hq⟩ := g4 x hx2
        exact ⟨c2, by simp [hc2], hq⟩

lemma crawlF_spec (env : Env) (base : Str) (maxD : Nat) :
    ∀ fuel (u : Str) (v : List Str) (d : Nat),
      List.Perm (crawlF env base maxD fuel u v d).visited
        ((crawlF env base maxD fuel u v d).links ++ v) ∧
      (crawlF env base maxD fuel u v d).fetched = (crawlF env base maxD fuel u v d).links ∧
      (v.Nodup → (crawlF env base maxD fuel u v d).visited.Nodup) ∧
      (∀ x ∈ (crawlF env base maxD fuel u v d).links,
        d ≤ maxD ∧ (x = u ∨ NormEntry base x) ∧ x ∈ reachList env base (maxD - d) u) := by
  intro fuel
  induction fuel with
  | zero =>
    intro u v d
    refine ⟨List.Perm.refl _, rfl, fun h => h, ?_⟩
    intro x hx
    simp [crawlF] at hx
  | succ k ih =>
    intro u v d
    rw [crawlF_succ]
    by_cases hg : maxD < d ∨ u ∈ v
    · rw [if_pos hg]
      refine ⟨List.Perm.refl _, rfl, fun h => h, ?_⟩
      intro x hx
      simp at hx
    · rw [if_neg hg]
      push_neg at hg
      obtain ⟨hdle2, hunv⟩ := hg
      cases henv : env u with
      | none =>
        dsimp only
        refine ⟨List.Perm.refl _, rfl, ?_, ?_⟩
        · intro hv
          exact List.nodup_cons.mpr ⟨hunv, hv⟩
        · intro x hx
          simp only [List.mem_singleton] at hx
          subst hx
          exact ⟨hdle2, Or.inl rfl, mem_reachList_self env base _ x⟩
      | some p =>
        dsimp only
        by_cases hp2 : p.status = 200 ∧ isSubstr (str "text/html") p.contentType
        · rw [if_pos hp2]
          have hrc := runChildren_spec (fun c vv => crawlF env base maxD k c vv (d + 1))
            (fun c x => d + 1 ≤ maxD ∧ (x = c ∨ NormEntry base x) ∧
              x ∈ reachList env base (maxD - (d + 1)) c)
            (fun c vv => ih c vv (d + 1))
            ((childCandidates u base p.hrefs).filter (fun c => !decide (c ∈ u :: v)))
            (u :: v)
          obtain ⟨g1, g2, g3, g4⟩ := hrc
          rw [crawlNode]
          refine ⟨?_, ?_, ?_, ?_⟩
          · dsimp only
            exact g1.trans List.perm_middle
          · dsimp only
            rw [g2]
          · dsimp only
            intro hv
            exact g3 (List.nodup_cons.mpr ⟨hunv, hv⟩)
          · dsimp only
            intro x hx
            rcases List.mem_cons.mp hx with rfl | hx2
            · exact ⟨hdle2, Or.inl rfl, mem_reachList_self env base _ x⟩
            · obtain ⟨c, hc, hd1, hxc, hreach⟩ := g4 x hx2
              have hcpl : c ∈ pageLinks env base u := by
                rw [pageLinks, henv]
                dsimp only
                rw [if_pos hp2]
                exact List.mem_of_mem_filter hc
              refine ⟨hdle2, Or.inr ?_, ?_⟩
              · rcases hxc with rfl | hne
                · exact childCandidates_normEntry u base p.hrefs x (List.mem_of_mem_filter hc)
                · exact hne
              · rw [show maxD - d = (maxD - (d + 1)) + 1 by omega, reachList]
                refine List.mem_cons_of_mem _ ?_
                rw [List.mem_flatMap]
                exact ⟨c, hcpl, hreach⟩
        · rw [if_neg hp2]
          refine ⟨List.Perm.refl _, rfl, ?_, ?_⟩
          · intro hv
            exact List.nodup_cons.mpr ⟨hunv, hv⟩
          · intro x hx
            simp only [List.mem_singleton] at hx
            subst hx
            exact ⟨hdle2, Or.inl rfl, mem_reachList_self env base _ x⟩

lemma sitemapRun_eq (env : Env) (s : Str) (m : Nat) :
    sitemapRun env s m =
      if (urlparse s).netloc = [] then ⟨[], [], []⟩
      else crawlF env ((urlparse s).netloc) m (m + 1) s [] 0 := rfl

/-! ### Claim theorems -/

/-- C1: Depth bound of the crawler: every URL in the list returned by
generate_sitemap(seed, max_depth) is reachable from the seed within
max_depth hops along the links the crawler follows (the seed is at depth
0, each followed link adds 1); hence no URL reachable only at hop distance
greater than max_depth ever appears. -/
theorem sitemap_depth_bound (env : Env) (seed : Str) (maxD : Nat) (x : Str)
    (hx : x ∈ generateSitemap env seed maxD) :
    x ∈ reachList env (urlparse seed).netloc maxD seed := by
  rw [generateSitemap, mem_sortStr, sitemapRun_eq] at hx
  by_cases hb : (urlparse seed).netloc = []
  · rw [if_pos hb] at hx
    simp at hx
  · rw [if_neg hb] at hx
    have h := (crawlF_spec env ((urlparse seed).netloc) maxD (maxD + 1) seed [] 0).2.2.2 x hx
    simpa using h.2.2

theorem sitemap_depth_bound_witness :
    (str "http://w.com/a") ∈ generateSitemap crawlEnvA (str "http://w.com/") 1 ∧
    (str "http://w.com/a") ∈
      reachList crawlEnvA (urlparse (str "http://w.com/")).netloc 1 (str "http://w.com/") :=
  ⟨by decide, sitemap_depth_bound crawlEnvA (str "http://w.com/") 1 (str "http://w.com/a")
    (by decide)⟩

/-- C2: Termination of the crawler: the crawl function is insensitive to
the fuel bounding its recursion as soon as the fuel exceeds the remaining
depth budget max_depth - depth, so the recursion always bottoms out at
depth max_depth + 1 and generate_sitemap terminates on every input, cycles
included. -/
theorem crawl_terminates_fuel_independent (env : Env) (base : Str) (maxD f1 f2 d : Nat)
    (u : Str) (v : List Str) (h1 : maxD < d + f1) (h2 : maxD < d + f2) :
    crawlF env base maxD f1 u v d = crawlF env base maxD f2 u v d := by
  rcases Nat.le_total f1 f2 with hle | hle
  · have e := crawlF_fuel_add env base maxD f1 (f2 - f1) d u v h1
    rw [show f1 + (f2 - f1) = f2 by omega] at e
    exact e.symm
  · have e := crawlF_fuel_add env base maxD f2 (f1 - f2) d u v h2
    rw [show f2 + (f1 - f2) = f1 by omega] at e
    exact e

theorem crawl_terminates_fuel_independent_witness :
    1 < 0 + 2 ∧ 1 < 0 + 5 ∧
    crawlF crawlEnvA (str "w.com") 1 2 (str "http://w.com/") [] 0 =
      crawlF crawlEnvA (str "w.com") 1 5 (str "http://w.com/") [] 0 :=
  ⟨by decide, by decide,
   crawl_terminates_fuel_independent crawlEnvA (str "w.com") 1 2 5 0 (str "http://w.com/") []
     (by decide) (by decide)⟩

/-- C5: No double-crawl: a branch whose URL is already in the visited set
at its own check returns at once, changing nothing and fetching nothing;
consequently the list of URLs fetched during a whole generate_sitemap run
has no duplicate. -/
theorem no_double_crawl (env : Env) (base : Str) (maxD fuel : Nat) (u : Str)
    (visited : List Str) (d : Nat) (seed : Str) (hu : u ∈ visited) :
    crawlF env base maxD fuel u visited d = ⟨[], visited, []⟩ ∧
    (sitemapRun env seed maxD).fetched.Nodup := by
  constructor
  · cases fuel with
    | zero => rfl
    | succ k => rw [crawlF_succ, if_pos (Or.inr hu)]
  · rw [sitemapRun_eq]
    by_cases hb : (urlparse seed).netloc = []
    · rw [if_pos hb]
      exact List.nodup_nil
    · rw [if_neg hb]
      obtain ⟨h1, h2, h3, _⟩ :=
        crawlF_spec env ((urlparse seed).netloc) maxD (maxD + 1) seed [] 0
      rw [h2]
      have hv := h3 List.nodup_nil
      have := (h1.nodup_iff).mp hv
      simpa using this

theorem no_double_crawl_witness :
    (str "http://w.com/") ∈ [str "http://w.com/"] ∧
    crawlF crawlEnvA (str "w.com") 1 2 (str "http://w.com/") [str "http://w.com/"] 0 =
      ⟨[], [str "http://w.com/"], []⟩ ∧
    (sitemapRun crawlEnvA (str "http://w.com/") 1).fetched.Nodup :=
  ⟨by decide,
   (no_double_crawl crawlEnvA (str "w.com") 1 2 (str "http://w.com/") [str "http://w.com/"] 0
     (str "http://w.com/") (by decide)).1,
   (no_double_crawl crawlEnvA (str "w.com") 1 2 (str "http://w.com/") [str "http://w.com/"] 0
     (str "http://w.com/") (by decide)).2⟩

/-- C10: For every seed URL whose parsed netloc is non-empty,
generate_sitemap returns a list containing the seed URL exactly as given —
whatever the network does, including every fetch failing — because the
failure path of a crawl branch still returns the singleton holding the
current URL. -/
theorem seed_in_sitemap (env : Env) (seed : Str) (maxD : Nat)
    (hseed : (urlparse seed).netloc ≠ []) :
    seed ∈ generateSitemap env seed maxD := by
  rw [generateSitemap, mem_sortStr, sitemapRun_eq, if_neg hseed]
  rw [crawlF_succ]
  have hg : ¬(maxD < 0 ∨ seed ∈ ([] : List Str)) := by simp
  rw [if_neg hg]
  cases henv : env seed with
  | none =>
    dsimp only
    simp
  | some p =>
    dsimp only
    by_cases hp2 : p.status = 200 ∧ isSubstr (str "text/html") p.contentType
    · rw [if_pos hp2, crawlNode]
      exact List.mem_cons_self _ _
    · rw [if_neg hp2]
      simp

theorem seed_in_sitemap_witness :
    (urlparse (str "https://seed.org/x?q=2")).netloc ≠ [] ∧
    (str "https://seed.org/x?q=2") ∈
      generateSitemap envAllFail (str "https://seed.org/x?q=2") 3 :=
  ⟨by decide, seed_in_sitemap envAllFail (str "https://seed.org/x?q=2") 3 (by decide)⟩

/-- C3 (counterexample): the claim "the returned list contains no two
entries that normalize to the same URL" fails: for the seed
https://example.com/a?q=1 whose page links to "a", the returned sitemap
contains both the seed (stored as given, query included) and the
normalized https://example.com/a, two distinct entries with the same
normalization. -/
theorem sitemap_normalized_dup_counterexample :
    (str "https://example.com/a?q=1") ∈
      generateSitemap crawlEnvQuery (str "https://example.com/a?q=1") 1 ∧
    (str "https://example.com/a") ∈
      generateSitemap crawlEnvQuery (str "https://example.com/a?q=1") 1 ∧
    (str "https://example.com/a?q=1") ≠ (str "https://example.com/a") ∧
    normalize (str "https://example.com/a?q=1") = normalize (str "https://example.com/a") := by
  decide

/-- C3 (amended): the returned sitemap has no duplicate entries and its
length equals the size of the visited set at completion; moreover any two
entries that normalize to the same URL are equal unless one of them is the
seed (which is stored exactly as given, unnormalized, while every other
entry is stored in normalized form). -/
theorem sitemap_dedup_amended (env : Env) (seed : Str) (maxD : Nat) :
    (generateSitemap env seed maxD).Nodup ∧
    (sitemapRun env seed maxD).visited.length = (generateSitemap env seed maxD).length ∧
    (∀ x ∈ generateSitemap env seed maxD, ∀ y ∈ generateSitemap env seed maxD,
      normalize x = normalize y → x = y ∨ x = seed ∨ y = seed) := by
  rw [generateSitemap, sitemapRun_eq]
  by_cases hb : (urlparse seed).netloc = []
  · rw [if_pos hb]
    refine ⟨by simp [sortStr], by simp [sortStr], ?_⟩
    intro x hx
    simp [sortStr] at hx
  · rw [if_neg hb]
    obtain ⟨h1, h2, h3, h4⟩ :=
      crawlF_spec env ((urlparse seed).netloc) maxD (maxD + 1) seed [] 0
    have hlnodup :
        (crawlF env ((urlparse seed).netloc) maxD (maxD + 1) seed [] 0).links.Nodup := by
      have hv := h3 List.nodup_nil
      have := (h1.nodup_iff).mp hv
      simpa using this
    refine ⟨nodup_sortStr hlnodup, ?_, ?_⟩
    · rw [length_sortStr]
      have := h1.length_eq
      simpa using this
    · intro x hx y hy hnorm
      rw [mem_sortStr] at hx hy
      rcases (h4 x hx).2.1 with rfl | hxn
      · exact Or.inr (Or.inl rfl)
      · rcases (h4 y hy).2.1 with rfl | hyn
        · exact Or.inr (Or.inr rfl)
        · exact Or.inl (normEntry_inj hb (urlparse_netloc_chars seed) hxn hyn hnorm)

theorem sitemap_dedup_amended_witness :
    (generateSitemap crawlEnvQuery (str "https://example.com/a?q=1") 1).Nodup ∧
    (sitemapRun crawlEnvQuery (str "https://example.com/a?q=1") 1).visited.length =
      (generateSitemap crawlEnvQuery (str "https://example.com/a?q=1") 1).length ∧
    ((str "https://example.com/a?q=1") = (str "https://example.com/a") ∨
      (str "https://example.com/a?q=1") = (str "https://example.com/a?q=1") ∨
      (str "https://example.com/a") = (str "https://example.com/a?q=1")) :=
  ⟨(sitemap_dedup_amended crawlEnvQuery (str "https://example.com/a?q=1") 1).1,
   (sitemap_dedup_amended crawlEnvQuery (str "https://example.com/a?q=1") 1).2.1,
   (sitemap_dedup_amended crawlEnvQuery (str "https://example.com/a?q=1") 1).2.2
     (str "https://example.com/a?q=1") (by decide) (str "https://example.com/a") (by decide)
     (by decide)⟩

/-- C4 (counterexample): the claim "no URL whose network authority
(scheme + host + port) differs from the seed's ever appears in the
sitemap" fails: the code compares only the netloc, so for the seed
https://example.com/ whose page links to http://example.com/x, the
sitemap contains a URL whose scheme — hence whose network authority —
differs from the seed's. -/
theorem sitemap_authority_counterexample :
    (str "http://example.com/x") ∈
      generateSitemap crawlEnvScheme (str "https://example.com/") 1 ∧
    ((urlparse (str "http://example.com/x")).scheme,
      (urlparse (str "http://example.com/x")).netloc) ≠
      ((urlparse (str "https://example.com/")).scheme,
        (urlparse (str "https://example.com/")).netloc) := by
  decide

/-- C4 (amended): every sitemap entry other than the seed is of the form
scheme ++ "://" ++ N ++ path where N is verbatim the seed URL's netloc
(host and port) and the path is empty or starts with '/'; only the netloc
is compared by the crawler, so the scheme of an entry may differ from the
seed's. -/
theorem sitemap_netloc_only_amended (env : Env) (seed : Str) (maxD : Nat) (x : Str)
    (hx : x ∈ generateSitemap env seed maxD) :
    x = seed ∨ ∃ s p, x = s ++ str "://" ++ (urlparse seed).netloc ++ p ∧
      SchemeShape s ∧ (p = [] ∨ p.take 1 = str "/") := by
  rw [generateSitemap, mem_sortStr, sitemapRun_eq] at hx
  by_cases hb : (urlparse seed).netloc = []
  · rw [if_pos hb] at hx
    simp at hx
  · rw [if_neg hb] at hx
    obtain ⟨_, _, _, h4⟩ :=
      crawlF_spec env ((urlparse seed).netloc) maxD (maxD + 1) seed [] 0
    rcases (h4 x hx).2.1 with rfl | hxn
    · exact Or.inl rfl
    · obtain ⟨s, p, hxe, hss, _, hst⟩ := hxn
      exact Or.inr ⟨s, p, hxe, hss, hst.resolve_left hb⟩

theorem sitemap_netloc_only_amended_witness :
    (str "http://example.com/x") ∈
      generateSitemap crawlEnvScheme (str "https://example.com/") 1 ∧
    ((str "http://example.com/x") = (str "https://example.com/") ∨
      ∃ s p, (str "http://example.com/x") =
          s ++ str "://" ++ (urlparse (str "https://example.com/")).netloc ++ p ∧
        SchemeShape s ∧ (p = [] ∨ p.take 1 = str "/")) :=
  ⟨by decide,
   sitemap_netloc_only_amended crawlEnvScheme (str "https://example.com/") 1
     (str "http://example.com/x") (by decide)⟩

/-- C6: Extension filter exactness: on a page with exactly the links
a.pdf, b.PDF, c.html and d.zip?x=1, with .pdf and .zip among the
configured target extensions, the download scan dispatches exactly 3
download attempts — extension matching is case-insensitive and ignores
the query string — and none for c.html. -/
theorem extension_filter_exact :
    str ".pdf" ∈ TARGET_EXTENSIONS ∧ str ".zip" ∈ TARGET_EXTENSIONS ∧
    (scrapeDownloadTargets scanEnvExt (str "http://example.com/")).length = 3 ∧
    str "http://example.com/c.html" ∉ scrapeDownloadTargets scanEnvExt (str "http://example.com/") ∧
    scrapeDownloadTargets scanEnvExt (str "http://example.com/") =
      [str "http://example.com/a.pdf", str "http://example.com/b.PDF",
       str "http://example.com/d.zip?x=1"] := by
  decide

/-- C7: Partial-failure isolation of downloads: when the dispatched
targets are gathered and at least one of them fails with a connection
error, the collected outcome list still has one entry per target, each
entry is the outcome of its own target alone, and the success and failure
tallies sum to the number of targets. -/
theorem download_partial_failure_isolated (denv : DlEnv) (targets : List Str)
    (h : ∃ t ∈ targets, denv t = none) :
    (gatherDownloads denv targets).length = targets.length ∧
    successCount (gatherDownloads denv targets) + failCount (gatherDownloads denv targets) =
      targets.length ∧
    (∀ i : Nat, (gatherDownloads denv targets)[i]? =
      (targets[i]?).map (fun t => (downloadFile [] t (denv t)).2)) := by
  refine ⟨List.length_map _ _, ?_, ?_⟩
  · rw [failCount]
    have hle : successCount (gatherDownloads denv targets) ≤
        (gatherDownloads denv targets).length := List.length_filter_le _ _
    have hlen : (gatherDownloads denv targets).length = targets.length :=
      List.length_map _ _
    omega
  · intro i
    rw [gatherDownloads, List.getElem?_map]

theorem download_partial_failure_isolated_witness :
    (∃ t ∈ dlTargetsFive, dlEnvOneErr t = none) ∧
    (gatherDownloads dlEnvOneErr dlTargetsFive).length = dlTargetsFive.length ∧
    successCount (gatherDownloads dlEnvOneErr dlTargetsFive) +
      failCount (gatherDownloads dlEnvOneErr dlTargetsFive) = dlTargetsFive.length ∧
    (gatherDownloads dlEnvOneErr dlTargetsFive)[1]? =
      (dlTargetsFive[1]?).map (fun t => (downloadFile [] t (dlEnvOneErr t)).2) :=
  ⟨by decide,
   (download_partial_failure_isolated dlEnvOneErr dlTargetsFive (by decide)).1,
   (download_partial_failure_isolated dlEnvOneErr dlTargetsFive (by decide)).2.1,
   (download_partial_failure_isolated dlEnvOneErr dlTargetsFive (by decide)).2.2 1⟩

/-- C8 (counterexample): the claim "a non-200 status or a non-HTML body
dispatches zero downloads" fails on the non-HTML half: scrape_website
checks only the status code, so a 200 response whose Content-Type is
application/json and whose body parses to an anchor on a.pdf still
dispatches one download. -/
theorem download_scan_content_type_counterexample :
    scanEnvJson (str "http://ex.com/") =
      some ⟨200, str "application/json", [str "a.pdf"]⟩ ∧
    isSubstr (str "text/html") (str "application/json") = false ∧
    scrapeDownloadTargets scanEnvJson (str "http://ex.com/") = [str "http://ex.com/a.pdf"] := by
  decide

/-- C8 (amended): when the orchestrator's single fetch of the page fails
or returns a non-200 status, zero download attempts are dispatched; the
response body's content type is not checked, so a 200 non-HTML body can
still yield dispatches. -/
theorem download_scan_non200_amended (env : Env) (u : Str) :
    (env u = none → scrapeDownloadTargets env u = []) ∧
    (∀ p : Page, env u = some p → p.status ≠ 200 → scrapeDownloadTargets env u = []) := by
  constructor
  · intro h
    rw [scrapeDownloadTargets, h]
  · intro p hp hs
    rw [scrapeDownloadTargets, hp]
    dsimp only
    rw [if_neg hs]

theorem download_scan_non200_amended_witness :
    scanEnvNotFound (str "http://ex.com/") = some ⟨404, str "text/html", [str "a.pdf"]⟩ ∧
    envAllFail (str "http://ex.com/") = none ∧
    scrapeDownloadTargets scanEnvNotFound (str "http://ex.com/") = [] ∧
    scrapeDownloadTargets envAllFail (str "http://ex.com/") = [] :=
  ⟨rfl, rfl,
   (download_scan_non200_amended scanEnvNotFound (str "http://ex.com/")).2
     ⟨404, str "text/html", [str "a.pdf"]⟩ rfl (by decide),
   (download_scan_non200_amended envAllFail (str "http://ex.com/")).1 rfl⟩

/-- C9: Content-disposition filename override: when the 200 response
carries a Content-Disposition header from which the regex captures a
filename that is non-empty after stripping surrounding whitespace, the
file is written under that supplied name with the path separators '/' and
'\' replaced by '_', instead of the URL-path-derived name; when no such
header is present the URL-path-derived name is used. -/
theorem content_disposition_override (rand url h g : Str)
    (hcap : cdCapture h = some g) (hne : stripWs g ≠ []) :
    (downloadFile rand url (some ⟨200, some h⟩)).1 = some (sepToUnderscore (stripWs g)) ∧
    (downloadFile rand url (some ⟨200, none⟩)).1 = some (urlFilename rand url) := by
  constructor
  · rw [downloadFile]
    dsimp only
    rw [if_pos rfl]
    dsimp only
    rw [downloadFilename]
    dsimp only
    rw [hcap]
    dsimp only
    rw [if_neg]
    intro hnil
    apply hne
    have : (stripWs g).length = 0 := by
      have := congrArg List.length hnil
      simpa [sepToUnderscore] using this
    exact List.eq_nil_of_length_eq_zero this
  · rw [downloadFile]
    dsimp only
    rw [if_pos rfl]
    rfl

theorem content_disposition_override_witness :
    cdCapture (str "attachment; filename=di/r.pdf") = some (str "di/r.pdf") ∧
    stripWs (str "di/r.pdf") ≠ [] ∧
    (downloadFile [] (str "http://e.com/f.bin")
      (some ⟨200, some (str "attachment; filename=di/r.pdf")⟩)).1 =
      some (sepToUnderscore (stripWs (str "di/r.pdf"))) ∧
    (downloadFile [] (str "http://e.com/f.bin") (some ⟨200, none⟩)).1 =
      some (urlFilename [] (str "http://e.com/f.bin")) :=
  ⟨by decide, by decide,
   (content_disposition_override [] (str "http://e.com/f.bin")
     (str "attachment; filename=di/r.pdf") (str "di/r.pdf") (by decide) (by decide)).1,
   (content_disposition_override [] (str "http://e.com/f.bin")
     (str "attachment; filename=di/r.pdf") (str "di/r.pdf") (by decide) (by decide)).2⟩

end WebScraper
